import Mathlib

/-!
Verification development for the rag_rust repository: a shallow embedding of
the indexing pipeline (chunker, file tracker, loader, indexer, Qdrant client
point construction) and of the query-time pipeline (retriever, request
handler / context injector), with theorems settling the specification claims.

Rust strings are modelled as Lean `String` / `List Char`; byte lengths are
computed through the UTF-8 size of each character.  External I/O (embedding
service, vector store, file system) is modelled by explicit environments of
call outcomes, and the code under test is translated statement by statement
from the source files.
-/

namespace Rag

/-! ### Basic string utilities shared by several components -/

/-- UTF-8 encoded size in bytes of one character (Rust `char::len_utf8`). -/
def charSize (c : Char) : Nat :=
  if c.toNat < 0x80 then 1
  else if c.toNat < 0x800 then 2
  else if c.toNat < 0x10000 then 3
  else 4

/-- Byte length of a character list, matching Rust `str::len` (UTF-8 bytes). -/
def byteLen (l : List Char) : Nat := (l.map charSize).sum

/-- Unicode `White_Space` test, matching Rust `char::is_whitespace`. -/
def isRustWhitespace (c : Char) : Bool :=
  let n := c.toNat
  n == 0x20 || (0x9 ≤ n && n ≤ 0xD) || n == 0x85 || n == 0xA0 || n == 0x1680 ||
    (0x2000 ≤ n && n ≤ 0x200A) || n == 0x2028 || n == 0x2029 || n == 0x202F ||
    n == 0x205F || n == 0x3000

/-- Remove leading and trailing whitespace, matching Rust `str::trim`. -/
def trimChars (l : List Char) : List Char :=
  ((l.dropWhile isRustWhitespace).reverse.dropWhile isRustWhitespace).reverse

/-- Rust `str::trim` lifted to `String`. -/
def rustTrim (s : String) : String := String.mk (trimChars s.toList)

/-- Split a character list at every newline character (every part except the
last one was followed by a `\n` in the input). -/
def splitNl : List Char → List (List Char)
  | [] => [[]]
  | c :: rest =>
    if c = '\n' then [] :: splitNl rest
    else
      match splitNl rest with
      | r :: rs => (c :: r) :: rs
      | [] => [[c]]

/-- Remove one trailing carriage return, if present. -/
def stripCr (l : List Char) : List Char :=
  if l.getLast? = some '\r' then l.dropLast else l

/-- Rust `str::lines`: split on `\n`, strip a `\r` from parts that were
followed by a `\n`, and drop the final empty part produced by a trailing
newline. -/
def linesOf (s : String) : List (List Char) :=
  let parts := splitNl s.toList
  parts.dropLast.map stripCr ++
    (match parts.getLast? with
     | some [] => []
     | some l => [l]
     | none => [])

/-- Join character-list lines with `\n` separators. -/
def intercalateNl : List (List Char) → List Char
  | [] => []
  | [l] => l
  | l :: ls => l ++ '\n' :: intercalateNl ls

/-! ### Chunker (src/indexing/chunker.rs, `chunk_text`) -/

/-- One step of the accumulation in `chunk_text`'s loop body: append the line
to the buffer, preceded by a `\n` separator when the buffer is non-empty. -/
def stepLine (cur line : List Char) : List Char :=
  if cur.isEmpty then line else cur ++ '\n' :: line

/-- The loop of `chunk_text`: for each line, flush the buffer (trimmed) when
adding the line would exceed `chunkSize` bytes and the buffer is non-empty,
then accumulate the line; finally flush any non-empty remainder. -/
def chunkGo (chunkSize : Nat) : List (List Char) → List Char → List (List Char) → List (List Char)
  | [], cur, acc => if cur.isEmpty then acc else acc ++ [trimChars cur]
  | line :: rest, cur, acc =>
    if byteLen cur + byteLen line + 1 > chunkSize && !cur.isEmpty then
      chunkGo chunkSize rest (stepLine [] line) (acc ++ [trimChars cur])
    else
      chunkGo chunkSize rest (stepLine cur line) acc

/-- `chunk_text` from src/indexing/chunker.rs: greedy line-granularity packing
into chunks of at most `chunk_size` bytes (a single oversized line may still
exceed it), each emitted chunk trimmed.  As a Lean function it is
deterministic by construction: identical input yields the identical output. -/
def chunk_text (text : String) (chunk_size : Nat) : List String :=
  (chunkGo chunk_size (linesOf text) [] []).map String.mk

/-! ### File tracker (src/indexing/file_tracker.rs)

The `files: HashMap<String, String>` map from file name to md5 hex digest is
modelled as an association list in which `insert` replaces an existing
binding.  The md5 digest itself comes from the external `md5` crate, so the
digest-to-hex function is a parameter of the operations that use it. -/

/-- Insert with replacement, matching `HashMap::insert` observably through
`get`. -/
def insertAssoc : List (String × String) → String → String → List (String × String)
  | [], k, v => [(k, v)]
  | (k', v') :: rest, k, v =>
    if k' = k then (k, v) :: rest else (k', v') :: insertAssoc rest k v

/-- The `FileTracker` structure: file name → md5 hex digest. -/
structure FileTracker where
  files : List (String × String)
  deriving DecidableEq

/-- `FileTracker::new`. -/
def FileTracker.new : FileTracker := ⟨[]⟩

/-- `FileTracker::get_file_md5` (a `HashMap::get`). -/
def getFileMd5 (t : FileTracker) (filename : String) : Option String :=
  t.files.lookup filename

/-- `FileTracker::set_file_md5` (a `HashMap::insert`). -/
def setFileMd5 (t : FileTracker) (filename md5 : String) : FileTracker :=
  ⟨insertAssoc t.files filename md5⟩

/-- `FileTracker::is_file_changed`: hex-digest the content and compare with
the stored digest; a file with no stored digest counts as changed.
`md5hex` models `format!("\x7b:x\x7d", Md5::digest(content))` from the
external md5 crate. -/
def isFileChanged (md5hex : List Nat → String) (t : FileTracker)
    (filename : String) (content : List Nat) : Bool :=
  match t.files.lookup filename with
  | some stored => stored != md5hex content
  | none => true

/-! ### Point construction in the Qdrant client (src/qdrant_custom_client.rs)

`upsert_points` derives the id of each point from the chunk text alone:
`DefaultHasher` (SipHash-1-3 with both keys zero) over the text, rendered as
32 zero-padded lowercase hex digits and reformatted as a UUID.  The hasher,
the padding and the UUID formatting are reproduced below. -/

/-- UTF-8 encoding of one character, as the byte list Rust hashes. -/
def charUtf8 (c : Char) : List Nat :=
  let n := c.toNat
  if n < 0x80 then [n]
  else if n < 0x800 then [0xC0 + n / 64, 0x80 + n % 64]
  else if n < 0x10000 then [0xE0 + n / 4096, 0x80 + (n / 64) % 64, 0x80 + n % 64]
  else [0xF0 + n / 262144, 0x80 + (n / 4096) % 64, 0x80 + (n / 64) % 64, 0x80 + n % 64]

/-- UTF-8 bytes of a string (`str::as_bytes`). -/
def utf8Bytes (s : String) : List Nat := (s.toList.map charUtf8).flatten

/-- 64-bit modulus used by the hasher arithmetic. -/
def U64 : Nat := 2 ^ 64

/-- 64-bit wrapping addition. -/
def add64 (a b : Nat) : Nat := (a + b) % U64

/-- 64-bit left rotation. -/
def rotl64 (x r : Nat) : Nat := ((x <<< r) % U64) ||| (x >>> (64 - r))

/-- SipHash internal state. -/
structure SipState where
  v0 : Nat
  v1 : Nat
  v2 : Nat
  v3 : Nat

/-- One SipHash round. -/
def sipRound (s : SipState) : SipState :=
  let v0 := add64 s.v0 s.v1
  let v1 := rotl64 s.v1 13
  let v1 := v1 ^^^ v0
  let v0 := rotl64 v0 32
  let v2 := add64 s.v2 s.v3
  let v3 := rotl64 s.v3 16
  let v3 := v3 ^^^ v2
  let v0 := add64 v0 v3
  let v3 := rotl64 v3 21
  let v3 := v3 ^^^ v0
  let v2 := add64 v2 v1
  let v1 := rotl64 v1 17
  let v1 := v1 ^^^ v2
  let v2 := rotl64 v2 32
  ⟨v0, v1, v2, v3⟩

/-- Interpret a byte list as a little-endian integer. -/
def leWord : List Nat → Nat
  | [] => 0
  | b :: rest => b + 256 * leWord rest

/-- Compression of one 64-bit message word with one round (SipHash-1-3 uses
a single round per word). -/
def sipCompress (s : SipState) (m : Nat) : SipState :=
  let s := { s with v3 := s.v3 ^^^ m }
  let s := sipRound s
  { s with v0 := s.v0 ^^^ m }

/-- Split a list into consecutive pieces of `n` elements (Rust
`slice::chunks`; Rust panics when `n = 0`, modelled as no pieces). -/
def chunksOfAux (n : Nat) : Nat → List α → List (List α)
  | _, [] => []
  | 0, l => [l]
  | fuel + 1, l => l.take n :: chunksOfAux n fuel (l.drop n)

/-- Rust `slice::chunks(n)` over a list. -/
def chunksOf (n : Nat) (l : List α) : List (List α) :=
  if n = 0 then [] else chunksOfAux n l.length l

/-- SipHash-1-3 with both keys zero, over a byte list: the algorithm behind
Rust's `DefaultHasher`. -/
def siphash13 (msg : List Nat) : Nat :=
  let s : SipState :=
    ⟨0x736f6d6570736575, 0x646f72616e646f6d, 0x6c7967656e657261, 0x7465646279746573⟩
  let nblocks := msg.length / 8
  let blocks := chunksOf 8 (msg.take (nblocks * 8))
  let tail := msg.drop (nblocks * 8)
  let s := blocks.foldl (fun s blk => sipCompress s (leWord blk)) s
  let b := ((msg.length % 256) <<< 56) + leWord tail
  let s := sipCompress s b
  let s := { s with v2 := s.v2 ^^^ 0xff }
  let s := sipRound (sipRound (sipRound s))
  s.v0 ^^^ s.v1 ^^^ s.v2 ^^^ s.v3

/-- `DefaultHasher` applied to a `String`: hash the UTF-8 bytes followed by a
`0xff` terminator byte (the `Hash for str` protocol). -/
def defaultHashStr (s : String) : Nat := siphash13 (utf8Bytes s ++ [0xff])

/-- One lowercase hex digit. -/
def hexDigitChar (n : Nat) : Char :=
  if n < 10 then Char.ofNat (48 + n) else Char.ofNat (87 + n)

/-- Lowercase hex digits of a number, most significant first (`"\x7b:x\x7d"`). -/
def toHexAux : Nat → Nat → List Char
  | 0, _ => []
  | fuel + 1, n => if n = 0 then [] else toHexAux fuel (n / 16) ++ [hexDigitChar (n % 16)]

/-- Lowercase hex rendering of a number (the empty number renders as "0"). -/
def toHexChars (n : Nat) : List Char :=
  if n = 0 then ['0'] else toHexAux 64 n

/-- `format!("\x7b:0>32x\x7d", h)`: hex digits left-padded with '0' to 32. -/
def padHex32 (n : Nat) : List Char :=
  let d := toHexChars n
  List.replicate (32 - d.length) '0' ++ d

/-- Reformat 32 hex digits as an 8-4-4-4-12 UUID string. -/
def uuidFormat (h : List Char) : String :=
  String.mk (h.take 8 ++ '-' :: ((h.drop 8).take 4 ++ '-' ::
    ((h.drop 12).take 4 ++ '-' :: ((h.drop 16).take 4 ++ '-' :: h.drop 20))))

/-- The id a chunk text receives in `upsert_points`: UUID-formatted padded
hex of the `DefaultHasher` value of the text.  Depends on the text only. -/
def pointId (text : String) : String := uuidFormat (padHex32 (defaultHashStr text))

/-- A point as built by `upsert_points`; the JSON payload
`\x7b"text": chunk_value, "source": filename\x7d` is modelled structurally.
The vector element type is a parameter (the code moves `f32` values through
untouched). -/
structure Point (V : Type) where
  id : String
  vector : List V
  payloadText : String
  payloadSource : String
  deriving DecidableEq

/-- The map body of `upsert_points` for one `(chunk_value, vector)` pair. -/
def mkUpsertPoint (filename : String) (c : String × List V) : Point V :=
  ⟨pointId c.1, c.2, c.1, filename⟩

/-- The full point list `upsert_points` sends to the vector store for one
call (src/qdrant_custom_client.rs lines 338-365). -/
def upsertRequestPoints (filename : String) (chunks : List (String × List V)) :
    List (Point V) :=
  chunks.map (mkUpsertPoint filename)

/-! ### Indexer (src/indexing/indexer.rs, `index_chunks`)

`index_chunks` performs external calls (embedding requests, vector-store
health check, upsert); their outcomes are supplied by an environment and the
calls made are recorded as an event trace, in order.  The vector element
type `V` is a parameter. -/

/-- Outcomes of the external calls made by `index_chunks`.  `embed` covers
the whole per-chunk embedding interaction (send, read body, parse); any of
those failures is a `.error` here, as all three are mapped to `Err` and
propagated by `?` in the source. -/
structure IndexEnv (V : Type) where
  embed : String → Except String V
  health : Except String Unit
  upsert : List (String × V) → Except String Bool

/-- External calls of one `index_chunks` run, in order. -/
inductive IxEvent (V : Type)
  | embed (prompt : String)
  | health
  | upsert (points : List (String × V))
  deriving DecidableEq

/-- The inner embedding loop over the non-empty chunks of one batch: each
chunk is sent to the embedding service; a failure is returned immediately
(the `?` operator), a success appends `(text, vector)`. -/
def embedLoop (env : IndexEnv V) :
    List String → Except String (List (String × V)) × List (IxEvent V)
  | [] => (.ok [], [])
  | c :: rest =>
    match env.embed c with
    | .error e => (.error e, [.embed c])
    | .ok v =>
      ((embedLoop env rest).1.map (fun ps => (c, v) :: ps),
        .embed c :: (embedLoop env rest).2)

/-- The batch loop of `index_chunks`: filter out whitespace-only chunks,
skip an all-empty batch, and embed the remaining chunks one by one. -/
def batchLoop (env : IndexEnv V) :
    List (List String) → Except String (List (String × V)) × List (IxEvent V)
  | [] => (.ok [], [])
  | b :: bs =>
    let ne := b.filter (fun c => !(rustTrim c).isEmpty)
    if ne.isEmpty then batchLoop env bs
    else
      match embedLoop env ne with
      | (.error e, evs) => (.error e, evs)
      | (.ok ps, evs) =>
        ((batchLoop env bs).1.map (fun qs => ps ++ qs), evs ++ (batchLoop env bs).2)

/-- `index_chunks` (src/indexing/indexer.rs lines 36-224): embed every
non-empty chunk, batch by batch; then, only if at least one embedding was
produced, health-check the vector store (fatal on failure) and upsert the
`(text, vector)` pairs (an `Ok(false)` status is also turned into an
error).  When no embeddings were produced the store is never contacted. -/
def indexChunks (env : IndexEnv V) (batchSize : Nat) (chunks : List String) :
    Except String Unit × List (IxEvent V) :=
  match batchLoop env (chunksOf batchSize chunks) with
  | (.error e, evs) => (.error e, evs)
  | (.ok pairs, evs) =>
    if pairs.isEmpty then (.ok (), evs)
    else
      match env.health with
      | .error e => (.error e, evs ++ [.health])
      | .ok _ =>
        match env.upsert pairs with
        | .error e => (.error e, evs ++ [.health, .upsert pairs])
        | .ok false => (.error "Failed to upsert points", evs ++ [.health, .upsert pairs])
        | .ok true => (.ok (), evs ++ [.health, .upsert pairs])

/-! ### Indexing main loop (src/indexing/main.rs lines 54-76)

For each changed file: load it (a load failure aborts the whole run via
`?`), chunk it, index the chunks; an indexing failure is logged and the loop
continues with the next file without recording a new digest; on success the
tracker records the md5 of the re-read file bytes (skipped if re-reading
fails). -/

/-- External-world outcomes for the main indexing loop. -/
structure RunEnv (V : Type) where
  load : String → Except String String
  index : IndexEnv V
  readBytes : String → Option (List Nat)
  md5hex : List Nat → String

/-- The per-file loop of the indexing binary, returning the final tracker
and the per-file indexer event traces. -/
def runLoop (renv : RunEnv V) (chunkSize batchSize : Nat) (tracker : FileTracker) :
    List String → Except String (FileTracker × List (String × IxEvent V))
  | [] => .ok (tracker, [])
  | f :: rest =>
    match renv.load f with
    | .error e => .error e
    | .ok content =>
      let tagged := (indexChunks renv.index batchSize
        (chunk_text content chunkSize)).2.map (fun ev => (f, ev))
      match (indexChunks renv.index batchSize (chunk_text content chunkSize)).1 with
      | .error _ =>
        (runLoop renv chunkSize batchSize tracker rest).map
          (fun p => (p.1, tagged ++ p.2))
      | .ok _ =>
        let tracker' :=
          match renv.readBytes f with
          | some bytes => setFileMd5 tracker f (renv.md5hex bytes)
          | none => tracker
        (runLoop renv chunkSize batchSize tracker' rest).map
          (fun p => (p.1, tagged ++ p.2))

/-! ### Document loader (src/indexing/loader.rs, `load_file_sync`)

The format-specific extractors are external crates; their outcomes are
supplied by an environment.  For PDF, `extract_text` opens the file itself,
so an unreadable file and a malformed document both surface as the same
`Err` of `extract_text` (or as a panic, caught by `catch_unwind`); the
source cannot distinguish them.  The DOCX path likewise folds load and parse
failures of `docx-rust` into its error outcome. -/

deriving instance DecidableEq for Except

/-- Outcome of one call to a format-specific extractor. -/
inductive ExtractOutcome
  | ok (text : String)
  | err (msg : String)
  | panicked (msg : String)
  deriving DecidableEq

/-- External outcomes for one `load_file_sync` call on one file. -/
structure LoadEnv where
  pdfExtract : ExtractOutcome
  docxExtract : ExtractOutcome
  readText : Except String String
  deriving DecidableEq

/-- Split a character list at every dot. -/
def splitOnDot : List Char → List (List Char)
  | [] => [[]]
  | c :: rest =>
    if c = '.' then [] :: splitOnDot rest
    else
      match splitOnDot rest with
      | r :: rs => (c :: r) :: rs
      | [] => [[c]]

/-- Rust `Path::extension` on a bare file name: the portion after the last
dot, unless the only dot is the leading character or there is no dot. -/
def extensionOf (name : String) : Option String :=
  match splitOnDot name.toList with
  | [] => none
  | [_] => none
  | first :: rest =>
    if first = [] ∧ rest.length = 1 then none
    else (rest.getLast?).map String.mk

/-- `load_pdf_file_sync` (src/indexing/loader.rs lines 216-236): the
extraction result is returned on success; an extraction error or a caught
panic is logged and converted into empty content — never an error. -/
def load_pdf_file_sync (o : ExtractOutcome) : Except String String :=
  match o with
  | .ok t => .ok t
  | .err _ => .ok ""
  | .panicked _ => .ok ""

/-- `load_docx_file_sync` (src/indexing/loader.rs lines 245-284): load and
parse failures of the docx crate are converted into empty content.  (Unlike
the PDF path there is no `catch_unwind` here; a docx panic would abort the
process and is outside this model.) -/
def load_docx_file_sync (o : ExtractOutcome) : Except String String :=
  match o with
  | .ok t => .ok t
  | .err _ => .ok ""
  | .panicked _ => .ok ""

/-- `load_file_sync` (src/indexing/loader.rs lines 72-105): dispatch on the
file extension; the pdf/docx helper results are additionally guarded by a
match that converts any error into empty content; every other extension is
read as plain text with I/O errors propagated (`AppError::Io`). -/
def load_file_sync (env : LoadEnv) (filename : String) : Except String String :=
  match extensionOf filename with
  | some "pdf" =>
    match load_pdf_file_sync env.pdfExtract with
    | .ok content => .ok content
    | .error _ => .ok ""
  | some "docx" =>
    match load_docx_file_sync env.docxExtract with
    | .ok content => .ok content
    | .error _ => .ok ""
  | _ => env.readText

/-! ### Retriever (src/rag_proxy/retriever.rs, `retrieve_context`)

The embedding call (send, read body, decode) and the vector-store search are
external; their outcomes are supplied by an environment.  Only the `payload`
field of a scored point is consumed here, so the remaining response fields
are not modelled. -/

/-- Payload of one search result (`SearchPointsPayload`). -/
structure SearchPayload where
  source : String
  text : String
  deriving DecidableEq

/-- A scored point as consumed by `retrieve_context`: the payload is
optional in the response schema. -/
structure RScoredPoint where
  payload : Option SearchPayload
  deriving DecidableEq

/-- External outcomes for one `retrieve_context` call. -/
structure RetrievalEnv (V : Type) where
  embed : Except String V
  search : V → Except String (List RScoredPoint)

/-- `retrieve_context` (src/rag_proxy/retriever.rs lines 40-115): embed the
question (failures propagate), search the collection (failures propagate),
then join the `text` of each result that carries a payload, in the returned
order, with a blank line. -/
def retrieve_context (env : RetrievalEnv V) : Except String String :=
  match env.embed with
  | .error e => .error e
  | .ok v =>
    match env.search v with
    | .error e => .error e
    | .ok pts =>
      .ok (String.intercalate "\n\n" ((pts.filterMap (fun p => p.payload)).map
        (fun p => p.text)))

/-! ### Request handler / context injector (src/rag_proxy/handler.rs) -/

/-- A part of a multi-part message content (`ContentPart`). -/
structure ContentPart where
  type : String
  text : Option String
  deriving DecidableEq

/-- Message content: plain text or a list of typed parts (`MessageContent`,
an untagged union in the source). -/
inductive MessageContent
  | text (s : String)
  | parts (ps : List ContentPart)
  deriving DecidableEq

/-- A chat message (`ChatMessage`). -/
structure ChatMessage where
  role : String
  content : MessageContent
  deriving DecidableEq

/-- The text of a message content as the handler reads it: a string content
verbatim; for parts, the texts of the parts typed "text", joined by one
space. -/
def contentText : MessageContent → String
  | .text s => s
  | .parts ps =>
    String.intercalate " "
      (ps.filterMap (fun p => if p.type = "text" then p.text else none))

/-- The question extraction of `handle_rag_request` (src/rag_proxy/handler.rs
lines 95-120): `messages.last()`, with `or_else(find role == "user")` as
fallback, then the content text, defaulting to the sentinel question. -/
def extractUserQuestion (msgs : List ChatMessage) : String :=
  match msgs.getLast? <|> msgs.find? (fun m => m.role = "user") with
  | some m => contentText m.content
  | none => "No question provided"

/-- Modelled from the spec: the question selection the specification
describes — the most recent message with role "user" (searching from the
end), falling back to the first message with role "user", with the sentinel
only when no user message exists.  Stated for comparison with
`extractUserQuestion`, which is translated from the source. -/
def extractUserQuestionSpec (msgs : List ChatMessage) : String :=
  match msgs.reverse.find? (fun m => m.role = "user") with
  | some m => contentText m.content
  | none => "No question provided"

/-- serde_json escaping of one character inside a JSON string: quote,
backslash and control characters are escaped, everything else is copied. -/
def escapeChar (c : Char) : List Char :=
  if c = '"' then ['\\', '"']
  else if c = '\\' then ['\\', '\\']
  else if c.toNat = 0x08 then ['\\', 'b']
  else if c = '\t' then ['\\', 't']
  else if c = '\n' then ['\\', 'n']
  else if c.toNat = 0x0C then ['\\', 'f']
  else if c = '\r' then ['\\', 'r']
  else if c.toNat < 0x20 then
    ['\\', 'u', '0', '0', hexDigitChar (c.toNat / 16), hexDigitChar (c.toNat % 16)]
  else [c]

/-- `serde_json::to_string` of a string value with the surrounding quotes
stripped, as the handler computes escaped fingerprints and contexts. -/
def jsonEscape (s : String) : String :=
  String.mk ((s.toList.map escapeChar).flatten)

/-- Whether `pat` is an initial segment of `l`. -/
def isPrefixL : List Char → List Char → Bool
  | [], _ => true
  | _ :: _, [] => false
  | a :: as, b :: bs => a == b && isPrefixL as bs

/-- Replacement loop of Rust `str::replace` for a non-empty pattern:
scan left to right, replacing each (non-overlapping) occurrence. -/
def replaceAux (pat rep : List Char) : Nat → List Char → List Char
  | 0, s => s
  | _ + 1, [] => []
  | fuel + 1, c :: rest =>
    if isPrefixL pat (c :: rest) then
      rep ++ replaceAux pat rep fuel ((c :: rest).drop pat.length)
    else c :: replaceAux pat rep fuel rest

/-- Rust `str::replace`: every non-overlapping occurrence of `pat` is
replaced by `rep`; the empty pattern matches at every character boundary. -/
def strReplace (s pat rep : String) : String :=
  if pat.toList.isEmpty then
    String.mk (rep.toList ++ (s.toList.map (fun c => c :: rep.toList)).flatten)
  else String.mk (replaceAux pat.toList rep.toList s.toList.length s.toList)

/-- Split a character list after exactly `n` UTF-8 bytes: `some` exactly
when `n` is a character boundary (Rust string slicing panics otherwise). -/
def splitAtByte : List Char → Nat → Option (List Char × List Char)
  | cs, 0 => some ([], cs)
  | [], _ + 1 => none
  | c :: cs, n + 1 =>
    if charSize c ≤ n + 1 then
      (splitAtByte cs (n + 1 - charSize c)).map (fun p => (c :: p.1, p.2))
    else none

/-- The anchor fingerprint computation of `handle_rag_request`
(src/rag_proxy/handler.rs lines 186-194): the last `k` BYTES of the system
content (the whole content when it is no longer than `k` bytes), obtained by
slicing at byte offset `len - k`.  `none` models the slicing panic that
occurs when that offset is not a character boundary. -/
def fingerprintOf (content : String) (k : Nat) : Option String :=
  let bytes := byteLen content.toList
  let e := if bytes > k then bytes - k else 0
  (splitAtByte content.toList e).map (fun p => String.mk p.2)

/-- The injection step of `handle_rag_request` for a non-empty context and a
located system-message content (src/rag_proxy/handler.rs lines 184-210):
format the context block, take the trailing fingerprint of the original
content, JSON-escape the fingerprint and the block, and replace the escaped
fingerprint in the raw payload text by the UNescaped fingerprint followed by
the escaped block.  `none` models the byte-slicing panic. -/
def injectContext (requestStr originalContent context : String) (k : Nat) :
    Option String :=
  let newContext := "--- Context from: RAG ---\n" ++ context
  (fingerprintOf originalContent k).map (fun fp =>
    let escFp := jsonEscape fp
    let escCtx := jsonEscape newContext
    strReplace requestStr escFp (fp ++ escCtx))

/-! ## Supporting lemmas -/

/-- Looking up a key right after inserting it yields the inserted value. -/
theorem lookup_insertAssoc (l : List (String × String)) (k v : String) :
    (insertAssoc l k v).lookup k = some v := by
  induction l with
  | nil => simp [insertAssoc, List.lookup]
  | cons hd tl ih =>
    obtain ⟨k', v'⟩ := hd
    by_cases hk : k' = k
    · simp [insertAssoc, hk, List.lookup]
    · simp only [insertAssoc, if_neg hk, List.lookup]
      have : (k == k') = false := by
        simp [beq_iff_eq]
        exact fun h => hk h.symm
      simp [this, ih]

/-! ## Claim C1 -/

/-- C1: every point sent to the vector store by `upsert_points` carries an id
derived from the chunk's text alone — two points built from chunks with
identical text, in any two calls with any source file names and any vectors,
receive the same id, so upserting the same chunk text twice addresses a
single logical point. -/
theorem upsert_ids_content_addressed {V : Type} (fn₁ fn₂ : String)
    (cs₁ cs₂ : List (String × List V)) (p q : Point V)
    (hp : p ∈ upsertRequestPoints fn₁ cs₁) (hq : q ∈ upsertRequestPoints fn₂ cs₂)
    (ht : p.payloadText = q.payloadText) : p.id = q.id := by
  obtain ⟨c, _, rfl⟩ := List.mem_map.mp hp
  obtain ⟨d, _, rfl⟩ := List.mem_map.mp hq
  simp only [mkUpsertPoint] at ht ⊢
  exact congrArg pointId ht

/-- Witness for C1 at a concrete pair of calls: the same chunk text indexed
from two different files, at different positions, with different vectors. -/
theorem upsert_ids_content_addressed_witness :
    (mkUpsertPoint "a.txt" ("hello world", [(0 : Nat)])).id
      = (mkUpsertPoint "b.txt" ("hello world", [(1 : Nat), 2])).id :=
  upsert_ids_content_addressed "a.txt" "b.txt"
    [("hello world", [0])] [("other", [3]), ("hello world", [1, 2])] _ _
    (by simp [upsertRequestPoints]) (by simp [upsertRequestPoints]) rfl

/-! ## Claim C7 -/

/-- C7: `is_file_changed` is false right after `set_file_md5` recorded the
digest of the same bytes for that name, true after a differing digest was
recorded for that name, and true whenever no digest is stored for the name. -/
theorem file_tracker_change_detection (md5hex : List Nat → String)
    (t : FileTracker) (name : String) (B B' : List Nat) :
    isFileChanged md5hex (setFileMd5 t name (md5hex B)) name B = false ∧
    (md5hex B' ≠ md5hex B →
      isFileChanged md5hex (setFileMd5 t name (md5hex B')) name B = true) ∧
    (getFileMd5 t name = none → isFileChanged md5hex t name B = true) := by
  refine ⟨?_, ?_, ?_⟩
  · simp [isFileChanged, setFileMd5, lookup_insertAssoc]
  · intro hne
    simp [isFileChanged, setFileMd5, lookup_insertAssoc, hne]
  · intro hnone
    simp only [getFileMd5] at hnone
    simp [isFileChanged, hnone]

/-- Witness for C7 with a concrete digest function and concrete byte
sequences whose digests differ. -/
theorem file_tracker_change_detection_witness :
    isFileChanged (fun (l : List Nat) => if l.isEmpty then "e" else "f")
      (setFileMd5 FileTracker.new "a.txt"
        ((fun (l : List Nat) => if l.isEmpty then "e" else "f") [])) "a.txt" []
      = false ∧
    isFileChanged (fun (l : List Nat) => if l.isEmpty then "e" else "f")
      (setFileMd5 FileTracker.new "a.txt"
        ((fun (l : List Nat) => if l.isEmpty then "e" else "f") [1])) "a.txt" []
      = true ∧
    isFileChanged (fun (l : List Nat) => if l.isEmpty then "e" else "f")
      FileTracker.new "a.txt" [] = true :=
  ⟨(file_tracker_change_detection _ FileTracker.new "a.txt" [] [1]).1,
   (file_tracker_change_detection _ FileTracker.new "a.txt" [] [1]).2.1 (by decide),
   (file_tracker_change_detection _ FileTracker.new "a.txt" [] [1]).2.2 rfl⟩

/-! ## Claim C9 -/

/-- C9: `retrieve_context` propagates an embedding failure as an error (it
never silently substitutes an empty context), and on success returns the
text fields of the search results, in returned order, joined by a blank
line — the empty string, as a success, when the search returns no
qualifying results. -/
theorem retrieve_context_spec {V : Type} (env : RetrievalEnv V) :
    (∀ e, env.embed = .error e → retrieve_context env = .error e) ∧
    (∀ v pts, env.embed = .ok v → env.search v = .ok pts →
      retrieve_context env = .ok (String.intercalate "\n\n"
        ((pts.filterMap (fun p => p.payload)).map (fun p => p.text)))) ∧
    (∀ v, env.embed = .ok v → env.search v = .ok [] →
      retrieve_context env = .ok "") := by
  refine ⟨?_, ?_, ?_⟩
  · intro e he; simp [retrieve_context, he]
  · intro v pts he hs; simp [retrieve_context, he, hs]
  · intro v he hs; simp [retrieve_context, he, hs]; rfl

/-- Witness for C9: an embedding failure, a two-result search (one result
lacking a payload), and an empty search, at concrete environments. -/
theorem retrieve_context_spec_witness :
    retrieve_context (V := Unit) ⟨.error "down", fun _ => .ok []⟩ = .error "down" ∧
    retrieve_context (V := Unit)
      ⟨.ok (), fun _ => .ok [⟨some ⟨"s", "t1"⟩⟩, ⟨none⟩, ⟨some ⟨"s", "t2"⟩⟩]⟩
      = .ok "t1\n\nt2" ∧
    retrieve_context (V := Unit) ⟨.ok (), fun _ => .ok []⟩ = .ok "" :=
  ⟨(retrieve_context_spec _).1 "down" rfl,
   ((retrieve_context_spec _).2.1 ()
      [⟨some ⟨"s", "t1"⟩⟩, ⟨none⟩, ⟨some ⟨"s", "t2"⟩⟩] rfl rfl).trans (by decide),
   (retrieve_context_spec _).2.2 () rfl rfl⟩

/-! ## Claim C4 -/

/-- Counterexample for C4: with a user message followed by an assistant
message, the handler's question is the assistant message's content (it takes
the last message regardless of role), not the content of the most recent
user message that the claim prescribes. -/
theorem question_extraction_cex :
    extractUserQuestion [⟨"user", .text "A"⟩, ⟨"assistant", .text "B"⟩] = "B" ∧
    extractUserQuestionSpec [⟨"user", .text "A"⟩, ⟨"assistant", .text "B"⟩] = "A" ∧
    extractUserQuestion [⟨"user", .text "A"⟩, ⟨"assistant", .text "B"⟩]
      ≠ extractUserQuestionSpec [⟨"user", .text "A"⟩, ⟨"assistant", .text "B"⟩] := by
  decide

/-- C4 amended: the question handed to the retriever is the content of the
LAST message regardless of its role (text-typed parts joined by one space
for multi-part content); the find-first-user fallback is unreachable, and
the sentinel question is used exactly when the messages list is empty. -/
theorem question_extraction_amended (msgs : List ChatMessage) :
    (∀ m, msgs.getLast? = some m → extractUserQuestion msgs = contentText m.content) ∧
    (msgs = [] → extractUserQuestion msgs = "No question provided") := by
  constructor
  · intro m hm
    simp [extractUserQuestion, hm, Option.orElse]
  · rintro rfl
    rfl

/-- Witness for C4 amended: an assistant-role last message and the empty
message list. -/
theorem question_extraction_amended_witness :
    extractUserQuestion [⟨"user", .text "A"⟩, ⟨"assistant", .text "B"⟩]
      = contentText (.text "B") ∧
    extractUserQuestion [] = "No question provided" :=
  ⟨(question_extraction_amended _).1 ⟨"assistant", .text "B"⟩ rfl,
   (question_extraction_amended _).2 rfl⟩

/-! ## Claim C10 -/

/-- Counterexample for C10: with system content "aé" and fingerprint length
1, the slicing offset is byte 2, which falls inside the two-byte character
'é' — not a character boundary, so the slice panics (modelled as `none`). -/
theorem fingerprint_slice_cex : fingerprintOf "aé" 1 = none := by decide

/-- C10 amended: the fingerprint byte offset is a valid boundary whenever
the system content is ASCII (every character one byte), and whenever the
content is no longer than the configured fingerprint length the whole
content is the fingerprint; on non-ASCII content the offset can split a
character and the slice panics. -/
theorem fingerprint_slice_ascii_safe (content : String) (k : Nat)
    (hascii : ∀ c ∈ content.toList, charSize c = 1) :
    (∃ fp, fingerprintOf content k = some fp) ∧
    (byteLen content.toList ≤ k → fingerprintOf content k = some content) := by
  constructor
  · have key : ∀ (cs : List Char), (∀ c ∈ cs, charSize c = 1) →
        ∀ e ≤ cs.length, ∃ p, splitAtByte cs e = some p := by
      intro cs
      induction cs with
      | nil =>
        intro _ e he
        have h0 : e = 0 := Nat.le_zero.mp he
        subst h0
        exact ⟨([], []), rfl⟩
      | cons c cs ih =>
        intro h1 e he
        match e with
        | 0 => exact ⟨([], c :: cs), rfl⟩
        | e + 1 =>
          have hc : charSize c = 1 := h1 c (by simp)
          have hle : charSize c ≤ e + 1 := by omega
          obtain ⟨p, hp⟩ := ih (fun x hx => h1 x (by simp [hx])) (e + 1 - charSize c)
            (by simp at he; omega)
          exact ⟨(c :: p.1, p.2), by simp [splitAtByte, hle, hp]⟩
    have hlen : ∀ (cs : List Char), (∀ c ∈ cs, charSize c = 1) → byteLen cs = cs.length := by
      intro cs
      induction cs with
      | nil => intro _; rfl
      | cons c cs ih =>
        intro h1
        have hc : charSize c = 1 := h1 c (by simp)
        have h2 := ih (fun x hx => h1 x (by simp [hx]))
        simp only [byteLen, List.map_cons, List.sum_cons, List.length_cons] at h2 ⊢
        omega
    obtain ⟨p, hp⟩ := key content.toList hascii
      (if byteLen content.toList > k then byteLen content.toList - k else 0)
      (by rw [hlen content.toList hascii]; split <;> omega)
    refine ⟨String.mk p.2, ?_⟩
    have h1 : fingerprintOf content k
        = (splitAtByte content.toList
            (if byteLen content.toList > k then byteLen content.toList - k else 0)).map
          (fun p => String.mk p.2) := rfl
    rw [h1, hp]
    rfl
  · intro hk
    have he : (if byteLen content.toList > k then byteLen content.toList - k else 0) = 0 := by
      split <;> omega
    have h1 : fingerprintOf content k
        = (splitAtByte content.toList
            (if byteLen content.toList > k then byteLen content.toList - k else 0)).map
          (fun p => String.mk p.2) := rfl
    have h2 : ∀ cs : List Char, splitAtByte cs 0 = some ([], cs) := by
      intro cs; cases cs <;> rfl
    rw [h1, he, h2 content.toList]
    cases content
    rfl

/-- Witness for C10 amended at a concrete ASCII system content, once
with a short fingerprint length and once with one exceeding the content. -/
theorem fingerprint_slice_ascii_safe_witness :
    (∃ fp, fingerprintOf "You are helpful." 4 = some fp) ∧
    (byteLen "You are helpful.".toList ≤ 50 →
      fingerprintOf "You are helpful." 50 = some "You are helpful.") :=
  ⟨(fingerprint_slice_ascii_safe "You are helpful." 4 (by decide)).1,
   (fingerprint_slice_ascii_safe "You are helpful." 50 (by decide)).2⟩

/-! ## Claim C5 -/

/-- The scenario payload of C5: one system message, no other occurrence of
its content elsewhere in the payload. -/
def scenarioPayload : String :=
  "\x7b\"model\":\"m\",\"messages\":[\x7b\"role\":\"system\",\"content\":\"You are helpful.\"\x7d]\x7d"

/-- The scenario payload with the context block spliced into the system
message content right after the original text, all other bytes unchanged. -/
def scenarioInjected : String :=
  "\x7b\"model\":\"m\",\"messages\":[\x7b\"role\":\"system\",\"content\":\"You are helpful.--- Context from: RAG ---\\nParis is the capital of France.\"\x7d]\x7d"

/-- A payload in which the system content also occurs as the model name. -/
def doubledPayload : String :=
  "\x7b\"model\":\"You are helpful.\",\"messages\":[\x7b\"role\":\"system\",\"content\":\"You are helpful.\"\x7d]\x7d"

/-- What C5 predicts for `doubledPayload`: only the system message content
extended, every byte outside it unchanged. -/
def doubledPredicted : String :=
  "\x7b\"model\":\"You are helpful.\",\"messages\":[\x7b\"role\":\"system\",\"content\":\"You are helpful.--- Context from: RAG ---\\nParis is the capital of France.\"\x7d]\x7d"

/-- What the code actually produces for `doubledPayload`: `str::replace`
rewrites EVERY occurrence of the escaped fingerprint, so the model field is
rewritten too. -/
def doubledActual : String :=
  "\x7b\"model\":\"You are helpful.--- Context from: RAG ---\\nParis is the capital of France.\",\"messages\":[\x7b\"role\":\"system\",\"content\":\"You are helpful.--- Context from: RAG ---\\nParis is the capital of France.\"\x7d]\x7d"

set_option maxRecDepth 100000 in
/-- Counterexample for C5: when the anchor fingerprint also occurs outside
the system message, the injection rewrites that occurrence as well, so the
bytes outside the injection point are NOT all unchanged. -/
theorem context_injection_cex :
    injectContext doubledPayload "You are helpful."
      "Paris is the capital of France." 50 = some doubledActual ∧
    injectContext doubledPayload "You are helpful."
      "Paris is the capital of France." 50 ≠ some doubledPredicted := by
  constructor
  · decide
  · decide

set_option maxRecDepth 100000 in
/-- C5 amended: for the scenario payload — where the escaped fingerprint
occurs exactly once — the outgoing payload is the original with the context
block appended immediately after the anchor inside the system message and
every other byte unchanged; in general `str::replace` rewrites every
occurrence of the escaped fingerprint, so bytes elsewhere are preserved
only when the anchor text occurs nowhere else in the raw payload. -/
theorem context_injection_scenario :
    injectContext scenarioPayload "You are helpful."
      "Paris is the capital of France." 50 = some scenarioInjected := by
  decide

/-! ## Claim C8 -/

/-- Counterexample for C8: an unreadable file surfaces, on the PDF and DOCX
paths, as the extractor's error outcome (the extractor opens the file
itself), and `load_file_sync` converts it into an empty-content SUCCESS —
the I/O failure does not propagate for these extensions. -/
theorem loader_io_error_swallowed_cex :
    load_file_sync ⟨.err "No such file or directory (os error 2)", .ok "", .ok ""⟩
      "doc.pdf" = .ok "" ∧
    load_file_sync ⟨.ok "", .err "No such file or directory (os error 2)", .ok ""⟩
      "doc.docx" = .ok "" := by
  constructor
  · decide
  · decide

/-- C8 amended: on the PDF and DOCX paths every failure — malformed
document, caught panic, or unreadable file — yields an empty-content
success (and a successful extraction is passed through); only the
plain-text path (any other extension) propagates the read outcome,
including its I/O errors, to the caller. -/
theorem loader_error_policy (env : LoadEnv) (filename : String) :
    (extensionOf filename = some "pdf" →
      load_file_sync env filename
        = .ok (match env.pdfExtract with | .ok t => t | _ => "")) ∧
    (extensionOf filename = some "docx" →
      load_file_sync env filename
        = .ok (match env.docxExtract with | .ok t => t | _ => "")) ∧
    (extensionOf filename ≠ some "pdf" → extensionOf filename ≠ some "docx" →
      load_file_sync env filename = env.readText) := by
  refine ⟨?_, ?_, ?_⟩
  · intro h
    unfold load_file_sync
    rw [h]
    cases env.pdfExtract <;> rfl
  · intro h
    unfold load_file_sync
    rw [h]
    cases env.docxExtract <;> rfl
  · intro h1 h2
    unfold load_file_sync
    split
    · rename_i heq; exact absurd heq h1
    · rename_i heq; exact absurd heq h2
    · rfl

/-- Witness for C8 amended: a panicking PDF extraction, a malformed DOCX,
and an unreadable plain-text file. -/
theorem loader_error_policy_witness :
    load_file_sync ⟨.panicked "stack overflow", .ok "", .error "io"⟩ "doc.pdf"
      = .ok "" ∧
    load_file_sync ⟨.ok "", .err "bad zip", .error "io"⟩ "doc.docx" = .ok "" ∧
    load_file_sync ⟨.ok "", .ok "", .error "io"⟩ "notes.txt" = .error "io" :=
  ⟨(loader_error_policy _ _).1 (by decide),
   (loader_error_policy _ _).2.1 (by decide),
   (loader_error_policy _ _).2.2 (by decide) (by decide)⟩

/-! ## Claim C2 -/

/-- Every event emitted by the embedding loop is an embedding call. -/
theorem embedLoop_events_embed {V : Type} (env : IndexEnv V) :
    ∀ cs, ∀ ev ∈ (embedLoop env cs).2, ∃ p, ev = IxEvent.embed p := by
  intro cs
  induction cs with
  | nil => intro ev h; simp [embedLoop] at h
  | cons c rest ih =>
    intro ev h
    simp only [embedLoop] at h
    cases hc : env.embed c with
    | error e =>
      rw [hc] at h
      simp at h
      exact ⟨c, h⟩
    | ok v =>
      rw [hc] at h
      simp at h
      rcases h with h | h
      · exact ⟨c, h⟩
      · exact ih ev h

/-- Unfolding of the embedding loop at a chunk whose embedding fails. -/
theorem embedLoop_cons_error {V : Type} (env : IndexEnv V) {c : String}
    {e : String} (rest : List String) (hc : env.embed c = .error e) :
    embedLoop env (c :: rest) = (.error e, [.embed c]) := by
  simp [embedLoop, hc]

/-- Unfolding of the embedding loop at a chunk whose embedding succeeds. -/
theorem embedLoop_cons_ok {V : Type} (env : IndexEnv V) {c : String}
    {v : V} (rest : List String) (hc : env.embed c = .ok v) :
    embedLoop env (c :: rest)
      = ((embedLoop env rest).1.map (fun ps => (c, v) :: ps),
          .embed c :: (embedLoop env rest).2) := by
  simp [embedLoop, hc]

/-- Appending chunk lists after a failing embedding loop changes nothing. -/
theorem embedLoop_append_error {V : Type} (env : IndexEnv V)
    {xs : List String} {e : String} {evs : List (IxEvent V)} (ys : List String)
    (h : embedLoop env xs = (.error e, evs)) :
    embedLoop env (xs ++ ys) = (.error e, evs) := by
  induction xs generalizing evs with
  | nil =>
    exact absurd (congrArg Prod.fst h) (by simp [embedLoop])
  | cons c rest ih =>
    rw [List.cons_append]
    cases hc : env.embed c with
    | error e' =>
      rw [embedLoop_cons_error env rest hc] at h
      rw [embedLoop_cons_error env (rest ++ ys) hc]
      exact h
    | ok v =>
      rw [embedLoop_cons_ok env rest hc] at h
      rw [embedLoop_cons_ok env (rest ++ ys) hc]
      have h1 : (embedLoop env rest).1.map (fun ps => (c, v) :: ps)
          = Except.error e := congrArg Prod.fst h
      have h2 : IxEvent.embed c :: (embedLoop env rest).2 = evs :=
        congrArg Prod.snd h
      cases hr : embedLoop env rest with
      | mk r revs =>
        rw [hr] at h1 h2
        cases r with
        | ok ps => simp [Except.map] at h1
        | error e'' =>
          simp only [Except.map] at h1
          injection h1 with h1
          subst h1
          simp only at h2
          subst h2
          rw [ih hr]
          simp [Except.map]

/-- Appending chunk lists after a successful embedding loop continues it. -/
theorem embedLoop_append_ok {V : Type} (env : IndexEnv V)
    {xs : List String} {ps : List (String × V)} {evs : List (IxEvent V)}
    (ys : List String) (h : embedLoop env xs = (.ok ps, evs)) :
    embedLoop env (xs ++ ys)
      = ((embedLoop env ys).1.map (fun qs => ps ++ qs),
          evs ++ (embedLoop env ys).2) := by
  induction xs generalizing ps evs with
  | nil =>
    have h1 : Except.ok ([] : List (String × V)) = Except.ok ps :=
      congrArg Prod.fst h
    have h2 : ([] : List (IxEvent V)) = evs := congrArg Prod.snd h
    injection h1 with h1
    subst h1
    subst h2
    simp only [List.nil_append]
    cases hys : embedLoop env ys with
    | mk r evs' => cases r <;> simp [Except.map]
  | cons c rest ih =>
    rw [List.cons_append]
    cases hc : env.embed c with
    | error e' =>
      rw [embedLoop_cons_error env rest hc] at h
      exact absurd (congrArg Prod.fst h) (by simp)
    | ok v =>
      rw [embedLoop_cons_ok env rest hc] at h
      rw [embedLoop_cons_ok env (rest ++ ys) hc]
      have h1 : (embedLoop env rest).1.map (fun qs => (c, v) :: qs)
          = Except.ok ps := congrArg Prod.fst h
      have h2 : IxEvent.embed c :: (embedLoop env rest).2 = evs :=
        congrArg Prod.snd h
      cases hr : embedLoop env rest with
      | mk r revs =>
        rw [hr] at h1 h2
        cases r with
        | error e'' => simp [Except.map] at h1
        | ok ps' =>
          simp only [Except.map] at h1
          injection h1 with h1
          subst h1
          simp only at h2
          subst h2
          rw [ih hr]
          cases hys : embedLoop env ys with
          | mk r' evs' => cases r' <;> simp [Except.map]

/-- The batch loop is the embedding loop over the whitespace-filtered
concatenation of the batches. -/
theorem batchLoop_eq {V : Type} (env : IndexEnv V) :
    ∀ bs, batchLoop env bs
      = embedLoop env (bs.flatten.filter (fun c => !(rustTrim c).isEmpty)) := by
  intro bs
  induction bs with
  | nil => rfl
  | cons b rest ih =>
    simp only [batchLoop, List.flatten_cons, List.filter_append]
    by_cases hne : (b.filter (fun c => !(rustTrim c).isEmpty)).isEmpty
    · rw [if_pos hne, ih, List.isEmpty_iff.mp hne, List.nil_append]
    · rw [if_neg hne]
      cases hE : embedLoop env (b.filter (fun c => !(rustTrim c).isEmpty)) with
      | mk r evs =>
        cases r with
        | error e =>
          rw [embedLoop_append_error env _ hE]
        | ok ps =>
          rw [embedLoop_append_ok env _ hE, ih]

/-- Counterexample for C2: with the vector-store health check failing, the
run does abort with that error — but only after the embedding call for the
chunk was already made; the event trace shows one embedding call before the
health check, not zero. -/
theorem health_check_order_cex :
    indexChunks (V := Unit)
        ⟨fun _ => .ok (), .error "connection refused", fun _ => .ok true⟩ 1 ["a"]
      = (.error "connection refused", [.embed "a", .health]) ∧
    IxEvent.embed (V := Unit) "a" ∈
      (indexChunks (V := Unit)
        ⟨fun _ => .ok (), .error "connection refused", fun _ => .ok true⟩ 1 ["a"]).2 := by
  constructor
  · decide
  · decide

/-- C2 amended: a failing health check still aborts the `index_chunks` run
for the file (its error is returned, and no upsert call is made), but the
health check happens only AFTER all embedding calls of the run: when the
embedding phase succeeds with at least one embedding, the trace is exactly
the embedding calls followed by the health check, and every event before
the health check is an embedding call. -/
theorem health_failure_aborts_after_embedding {V : Type} (env : IndexEnv V)
    (bs : Nat) (chunks : List String) (e : String) (pairs : List (String × V))
    (evs : List (IxEvent V)) (hh : env.health = .error e)
    (hb : batchLoop env (chunksOf bs chunks) = (.ok pairs, evs))
    (hne : pairs ≠ []) :
    indexChunks env bs chunks = (.error e, evs ++ [.health]) ∧
    ∀ ev ∈ evs, ∃ p, ev = IxEvent.embed p := by
  constructor
  · simp only [indexChunks, hb]
    have hfalse : pairs.isEmpty = false := by
      cases pairs with
      | nil => exact absurd rfl hne
      | cons a as => rfl
    simp [hfalse, hh]
  · intro ev hev
    have h2 : ev ∈ (batchLoop env (chunksOf bs chunks)).2 := by
      rw [hb]; exact hev
    rw [batchLoop_eq] at h2
    exact embedLoop_events_embed env _ ev h2

/-- Witness for C2 amended at the concrete health-down environment. -/
theorem health_failure_aborts_after_embedding_witness :
    indexChunks (V := Unit)
        ⟨fun _ => .ok (), .error "connection refused", fun _ => .ok true⟩ 1 ["a"]
      = (.error "connection refused", [.embed "a", .health]) :=
  (health_failure_aborts_after_embedding
    ⟨fun _ => .ok (), .error "connection refused", fun _ => .ok true⟩ 1 ["a"]
    "connection refused" [("a", ())] [.embed "a"] rfl (by decide) (by decide)).1

/-! ## Claim C3 -/

/-- Concatenating the pieces of `chunks(n)` recovers the original list. -/
theorem chunksOf_flatten {α : Type} (n : Nat) (h : 0 < n) (l : List α) :
    (chunksOf n l).flatten = l := by
  have aux : ∀ (fuel : Nat) (l : List α), (chunksOfAux n fuel l).flatten = l := by
    intro fuel
    induction fuel with
    | zero =>
      intro l
      cases l with
      | nil => rfl
      | cons a as => simp [chunksOfAux]
    | succ fuel ih =>
      intro l
      cases l with
      | nil => rfl
      | cons a as =>
        simp only [chunksOfAux, List.flatten_cons, ih]
        exact List.take_append_drop n (a :: as)
  simp only [chunksOf, if_neg (Nat.pos_iff_ne_zero.mp h)]
  exact aux l.length l

/-- The embedding loop at the first failing chunk: every chunk before it is
embedded, the failing chunk's call is made and its error is returned, and no
later chunk is ever embedded. -/
theorem embedLoop_first_failure {V : Type} (env : IndexEnv V)
    (pre : List String) (c : String) (post : List String) (e : String)
    (hpre : ∀ p ∈ pre, ∃ v, env.embed p = .ok v)
    (hc : env.embed c = .error e) :
    embedLoop env (pre ++ c :: post)
      = (.error e, pre.map IxEvent.embed ++ [.embed c]) := by
  induction pre with
  | nil =>
    simpa using embedLoop_cons_error env post hc
  | cons p pre' ih =>
    obtain ⟨v, hv⟩ := hpre p (by simp)
    rw [List.cons_append, embedLoop_cons_ok env (pre' ++ c :: post) hv,
      ih (fun q hq => hpre q (by simp [hq]))]
    simp [Except.map]

/-- Counterexample for C3: when the embedding of chunk "b" fails, chunk "c"
of the same file is never embedded, nothing is upserted, and `index_chunks`
returns the error — the failure aborts the whole file rather than skipping
the one chunk. -/
theorem chunk_failure_aborts_file_cex :
    indexChunks (V := Unit)
        ⟨fun c => if c = "b" then .error "boom" else .ok (), .ok (), fun _ => .ok true⟩
        10 ["a", "b", "c"]
      = (.error "boom", [.embed "a", .embed "b"]) ∧
    IxEvent.embed (V := Unit) "c" ∉
      (indexChunks (V := Unit)
        ⟨fun c => if c = "b" then .error "boom" else .ok (), .ok (), fun _ => .ok true⟩
        10 ["a", "b", "c"]).2 := by
  constructor
  · decide
  · decide

/-- C3 amended: a chunk's embedding failure aborts its FILE — the failing
chunk's error is returned from `index_chunks`, chunks after it are never
embedded and nothing of the file is upserted — while the overall run
continues: the indexing main loop logs the per-file error, records no new
digest for that file, and processes the remaining files exactly as it would
have without the failed file. -/
theorem chunk_embedding_failure_policy :
    (∀ (V : Type) (env : IndexEnv V) (bs : Nat) (chunks : List String)
      (e : String) (pre post : List String) (c : String),
      0 < bs →
      chunks.filter (fun s => !(rustTrim s).isEmpty) = pre ++ c :: post →
      (∀ p ∈ pre, ∃ v, env.embed p = .ok v) →
      env.embed c = .error e →
      indexChunks env bs chunks
        = (.error e, pre.map IxEvent.embed ++ [.embed c])) ∧
    (∀ (V : Type) (renv : RunEnv V) (cs bsz : Nat) (tracker : FileTracker)
      (f : String) (rest : List String) (content e : String),
      renv.load f = .ok content →
      (indexChunks renv.index bsz (chunk_text content cs)).1 = .error e →
      runLoop renv cs bsz tracker (f :: rest)
        = (runLoop renv cs bsz tracker rest).map
            (fun p => (p.1,
              (indexChunks renv.index bsz (chunk_text content cs)).2.map
                (fun ev => (f, ev)) ++ p.2))) := by
  constructor
  · intro V env bs chunks e pre post c hbs hfilter hpre hc
    have hb := batchLoop_eq env (chunksOf bs chunks)
    rw [chunksOf_flatten bs hbs chunks, hfilter,
      embedLoop_first_failure env pre c post e hpre hc] at hb
    simp only [indexChunks, hb]
  · intro V renv cs bsz tracker f rest content e hload hidx
    simp only [runLoop, hload, hidx]

/-- Witness for C3 amended: a three-chunk file whose middle chunk fails, and
a two-file run whose first file fails to index. -/
theorem chunk_embedding_failure_policy_witness :
    indexChunks (V := Unit)
        ⟨fun c => if c = "q" then .error "boom" else .ok (), .ok (), fun _ => .ok true⟩
        10 ["p", "q", "r"]
      = (.error "boom", [.embed "p", .embed "q"]) ∧
    runLoop (V := Unit)
        ⟨fun _ => .ok "x", ⟨fun _ => .error "boom", .ok (), fun _ => .ok true⟩,
          fun _ => some [], fun _ => "d"⟩ 10 10 FileTracker.new ["f1", "f2"]
      = (runLoop (V := Unit)
          ⟨fun _ => .ok "x", ⟨fun _ => .error "boom", .ok (), fun _ => .ok true⟩,
            fun _ => some [], fun _ => "d"⟩ 10 10 FileTracker.new ["f2"]).map
          (fun p => (p.1,
            (indexChunks (V := Unit)
              (⟨fun _ => .ok "x", ⟨fun _ => .error "boom", .ok (), fun _ => .ok true⟩,
                fun _ => some [], fun _ => "d"⟩ : RunEnv Unit).index
              10 (chunk_text "x" 10)).2.map (fun ev => ("f1", ev)) ++ p.2)) :=
  ⟨chunk_embedding_failure_policy.1 Unit
     ⟨fun c => if c = "q" then .error "boom" else .ok (), .ok (), fun _ => .ok true⟩
     10 ["p", "q", "r"] "boom" ["p"] ["r"] "q" (by decide) (by decide)
     (by
       intro p hp
       simp at hp
       subst hp
       exact ⟨(), rfl⟩)
     (by decide),
   chunk_embedding_failure_policy.2 Unit
     ⟨fun _ => .ok "x", ⟨fun _ => .error "boom", .ok (), fun _ => .ok true⟩,
       fun _ => some [], fun _ => "d"⟩
     10 10 FileTracker.new "f1" ["f2"] "x" "boom" rfl (by decide)⟩

/-! ## Claim C6 -/

/-- The buffer the chunker loop accumulates for a group of lines. -/
def accLines (ls : List (List Char)) : List Char := ls.foldl stepLine []

/-- Folding `stepLine` over lines starting from a non-empty buffer appends
each line preceded by a separator. -/
theorem foldl_stepLine_ne :
    ∀ (ls : List (List Char)) (cur : List Char), cur ≠ [] →
      ls.foldl stepLine cur = cur ++ (ls.map (fun l => '\n' :: l)).flatten := by
  intro ls
  induction ls with
  | nil => intro cur _; simp
  | cons l ls ih =>
    intro cur hcur
    have hstep : stepLine cur l = cur ++ '\n' :: l := by
      simp [stepLine, List.isEmpty_iff, hcur]
    rw [List.foldl_cons, hstep, ih (cur ++ '\n' :: l) (by simp)]
    simp

/-- `intercalateNl` of a non-empty list, in separator-flatten form. -/
theorem intercalateNl_eq_cons (x : List Char) (xs : List (List Char)) :
    intercalateNl (x :: xs) = x ++ (xs.map (fun l => '\n' :: l)).flatten := by
  induction xs generalizing x with
  | nil => simp [intercalateNl]
  | cons y ys ih =>
    show x ++ '\n' :: intercalateNl (y :: ys) = _
    rw [ih y]
    simp

/-- Trimming ignores a leading newline. -/
theorem trim_cons_nl (z : List Char) : trimChars ('\n' :: z) = trimChars z := by
  simp [trimChars, List.dropWhile_cons, show isRustWhitespace '\n' = true by decide]

/-- The accumulated buffer of a group of lines trims to the same string as
the group joined with newline separators: the buffer differs only by the
separators it skips in front of leading empty lines. -/
theorem trim_accLines : ∀ g : List (List Char),
    trimChars (accLines g) = trimChars (intercalateNl g) := by
  intro g
  induction g with
  | nil => rfl
  | cons l g' ih =>
    by_cases hl : l = []
    · subst hl
      have h1 : accLines ([] :: g') = accLines g' := rfl
      rw [h1]
      cases g' with
      | nil => rfl
      | cons y ys =>
        have h2 : intercalateNl ([] :: y :: ys) = '\n' :: intercalateNl (y :: ys) := rfl
        rw [h2, trim_cons_nl, ih]
    · have h1 : accLines (l :: g') = g'.foldl stepLine l := rfl
      rw [h1, foldl_stepLine_ne g' l hl, intercalateNl_eq_cons]

/-- A group of lines contributes a chunk exactly when one of its lines is
non-empty. -/
theorem accLines_any : ∀ g : List (List Char),
    g.any (fun l => !l.isEmpty) = !(accLines g).isEmpty := by
  intro g
  induction g with
  | nil => rfl
  | cons l g' ih =>
    by_cases hl : l = []
    · subst hl
      have h1 : accLines ([] :: g') = accLines g' := rfl
      simp only [List.any_cons, h1, ih, List.isEmpty_nil, Bool.not_true,
        Bool.false_or]
    · have h1 : accLines (l :: g') = g'.foldl stepLine l := rfl
      rw [h1, foldl_stepLine_ne g' l hl]
      cases l with
      | nil => exact absurd rfl hl
      | cons a as => simp

/-- The chunker loop, started on any pending group and emitted chunks,
partitions the remaining lines into consecutive groups: each group holding a
non-empty line yields exactly one chunk — the group joined with its original
line breaks and then trimmed — and groups of empty lines yield nothing. -/
theorem chunkGo_partition (S : Nat) :
    ∀ (rest pending acc : List (List Char)),
      ∃ gs : List (List (List Char)),
        gs.flatten = pending ++ rest ∧
        chunkGo S rest (accLines pending) acc
          = acc ++ (gs.filter (fun g => !(accLines g).isEmpty)).map
              (fun g => trimChars (intercalateNl g)) := by
  intro rest
  induction rest with
  | nil =>
    intro pending acc
    refine ⟨[pending], by simp, ?_⟩
    cases hP : (accLines pending).isEmpty with
    | true =>
      have hstep : chunkGo S [] (accLines pending) acc = acc := by
        simp [chunkGo, hP]
      rw [hstep]
      have hfilter : [pending].filter (fun g => !(accLines g).isEmpty) = [] := by
        simp [List.filter, hP]
      rw [hfilter]
      simp
    | false =>
      have hstep : chunkGo S [] (accLines pending) acc
          = acc ++ [trimChars (accLines pending)] := by
        simp [chunkGo, hP]
      have hfilter : [pending].filter (fun g => !(accLines g).isEmpty)
          = [pending] := by
        simp [List.filter, hP]
      rw [hstep, hfilter]
      simp [trim_accLines]
  | cons line rest' ih =>
    intro pending acc
    by_cases hcond : (byteLen (accLines pending) + byteLen line + 1 > S
        && !(accLines pending).isEmpty) = true
    · have hstep : chunkGo S (line :: rest') (accLines pending) acc
          = chunkGo S rest' (stepLine [] line)
              (acc ++ [trimChars (accLines pending)]) := by
        simp [chunkGo, hcond]
      have hline : stepLine [] line = accLines [line] := rfl
      obtain ⟨gs', hflat, heq⟩ := ih [line] (acc ++ [trimChars (accLines pending)])
      refine ⟨pending :: gs', by simp [hflat], ?_⟩
      rw [hstep, hline, heq]
      have hkeep : (!(accLines pending).isEmpty) = true := by
        cases hb : (accLines pending).isEmpty
        · rfl
        · rw [hb] at hcond; simp at hcond
      simp [List.filter_cons, hkeep, trim_accLines, List.append_assoc]
    · have hstep : chunkGo S (line :: rest') (accLines pending) acc
          = chunkGo S rest' (stepLine (accLines pending) line) acc := by
        simp [chunkGo, hcond]
      have hline : stepLine (accLines pending) line
          = accLines (pending ++ [line]) := by
        simp [accLines, List.foldl_append]
      obtain ⟨gs', hflat, heq⟩ := ih (pending ++ [line]) acc
      refine ⟨gs', by rw [hflat]; simp, ?_⟩
      rw [hstep, hline, heq]

/-- C6: `chunk_text` partitions the lines of the text into consecutive
groups — no line is dropped or reordered — and emits, for exactly the groups
holding a non-empty line, the group rejoined with its original line breaks
and trimmed of surrounding whitespace; so rejoining the chunks reproduces
the text's content up to the per-chunk trimming, and the function is
deterministic by construction. -/
theorem chunker_reconstruction (text : String) (S : Nat) (_h : 0 < S) :
    ∃ gs : List (List (List Char)),
      gs.flatten = linesOf text ∧
      chunk_text text S
        = (gs.filter (fun g => g.any (fun l => !l.isEmpty))).map
            (fun g => String.mk (trimChars (intercalateNl g))) := by
  obtain ⟨gs, hflat, heq⟩ := chunkGo_partition S (linesOf text) [] []
  have hacc : accLines [] = ([] : List Char) := rfl
  rw [hacc] at heq
  refine ⟨gs, by simpa using hflat, ?_⟩
  simp only [chunk_text]
  rw [heq]
  have hpred : (fun g : List (List Char) => !(accLines g).isEmpty)
      = (fun g => g.any (fun l => !l.isEmpty)) :=
    funext (fun g => (accLines_any g).symm)
  rw [hpred]
  simp [List.map_map, Function.comp]

/-- Witness for C6 at the spec's own scenario input. -/
theorem chunker_reconstruction_witness :
    ∃ gs : List (List (List Char)),
      gs.flatten = linesOf "line1\nline2" ∧
      chunk_text "line1\nline2" 100
        = (gs.filter (fun g => g.any (fun l => !l.isEmpty))).map
            (fun g => String.mk (trimChars (intercalateNl g))) :=
  chunker_reconstruction "line1\nline2" 100 (by decide)

end Rag
